import Mathlib

/-!
Verification of the advanced-vector container (src/advanced-vector/vector.h).

A raw buffer of capacity `n` (the `RawMemory<T>` block) is modelled as a
`List (Option α)` of length `n`: `some x` is a cell holding a live
constructed element with value `x`, `none` is a raw (uninitialized) cell.
A `Vector` pairs such a buffer (`data_`) with the live-element count
(`size_`).  Element moves are modelled as value copies (a moved-from C++
object is still a live object; only its value is unspecified, and the
container never reads moved-from values).
-/

namespace AdvancedVector

/-- Writes the cells `vals` consecutively into `buf` starting at index
`start`.  This models a loop of placement-constructions or assignments
whose source is distinct from `buf`: `std::uninitialized_copy_n`,
`std::uninitialized_move_n`, `std::uninitialized_value_construct_n`
(`vals` all `some d`), `std::copy` from another buffer, and
`std::destroy_n` / `DestroyN` (`vals` all `none`). -/
def writeRange : List (Option α) → Nat → List (Option α) → List (Option α)
  | buf, _, [] => buf
  | buf, start, a :: rest => writeRange (buf.set start a) (start + 1) rest

/-- Models `std::move_backward(first, first + n, first + n + 1)` on a single
buffer: for k = n, n-1, ..., 1 (back to front) the cell at `first + k`
receives the value of the cell at `first + k - 1`. -/
def moveBackwardCells : List (Option α) → Nat → Nat → List (Option α)
  | buf, _, 0 => buf
  | buf, first, n + 1 =>
      moveBackwardCells (buf.set (first + n + 1) (buf.getD (first + n) none)) first n

/-- Models `std::move(src, src + n, dst)` with `dst < src` on a single
buffer: for k = 0, 1, ..., n-1 (front to back) the cell at `dst + k`
receives the value of the cell at `src + k`. -/
def moveCells : List (Option α) → Nat → Nat → Nat → List (Option α)
  | buf, _, _, 0 => buf
  | buf, src, dst, n + 1 => moveCells (buf.set dst (buf.getD src none)) (src + 1) (dst + 1) n

theorem length_writeRange (buf : List (Option α)) (start : Nat) (vals : List (Option α)) :
    (writeRange buf start vals).length = buf.length := by
  induction vals generalizing buf start with
  | nil => rfl
  | cons a rest ih => rw [writeRange, ih]; simp

theorem getD_set_self (l : List (Option α)) (i : Nat) (a : Option α) (h : i < l.length) :
    (l.set i a).getD i none = a := by
  induction l generalizing i with
  | nil => simp at h
  | cons b t ih =>
    cases i with
    | zero => rfl
    | succ j => simpa using ih j (by simpa using h)

theorem getD_set_ne (l : List (Option α)) (i j : Nat) (a : Option α) (h : i ≠ j) :
    (l.set i a).getD j none = l.getD j none := by
  induction l generalizing i j with
  | nil => simp [List.set]
  | cons b t ih =>
    cases i with
    | zero =>
      cases j with
      | zero => exact absurd rfl h
      | succ k => rfl
    | succ i' =>
      cases j with
      | zero => rfl
      | succ k => simpa using ih i' k (by omega)

theorem getD_replicate_none (n i : Nat) :
    (List.replicate n (none : Option α)).getD i none = none := by
  induction n generalizing i with
  | zero => rfl
  | succ m ih =>
    cases i with
    | zero => rfl
    | succ j => exact ih j

theorem getD_ge_length (l : List (Option α)) (i : Nat) (h : l.length ≤ i) :
    l.getD i none = none := by
  induction l generalizing i with
  | nil => rfl
  | cons b t ih =>
    cases i with
    | zero => simp at h
    | succ j => simpa using ih j (by simp at h; omega)

theorem getD_writeRange (buf : List (Option α)) (start : Nat) (vals : List (Option α)) (i : Nat)
    (h : start + vals.length ≤ buf.length) :
    (writeRange buf start vals).getD i none =
      if start ≤ i ∧ i < start + vals.length then vals.getD (i - start) none
      else buf.getD i none := by
  induction vals generalizing buf start with
  | nil =>
    rw [writeRange, if_neg (by simp only [List.length_nil]; omega)]
  | cons a rest ih =>
    rw [writeRange, ih _ _ (by simp at h ⊢; omega)]
    by_cases h1 : start + 1 ≤ i ∧ i < start + 1 + rest.length
    · rw [if_pos h1, if_pos (by simp; omega)]
      have hi : i - start = (i - (start + 1)) + 1 := by omega
      rw [hi]
      simp
    · rw [if_neg h1]
      by_cases h2 : i = start
      · subst h2
        rw [if_pos (by simp)]
        rw [getD_set_self _ _ _ (by simp at h; omega)]
        simp
      · have : ¬ (start ≤ i ∧ i < start + (a :: rest).length) := by simp at h1 ⊢; omega
        rw [if_neg this, getD_set_ne _ _ _ _ (by omega)]

theorem length_moveBackwardCells (buf : List (Option α)) (first n : Nat) :
    (moveBackwardCells buf first n).length = buf.length := by
  induction n generalizing buf with
  | zero => rfl
  | succ m ih => rw [moveBackwardCells, ih]; simp

theorem getD_moveBackwardCells (buf : List (Option α)) (first n i : Nat)
    (h : first + n < buf.length) :
    (moveBackwardCells buf first n).getD i none =
      if first + 1 ≤ i ∧ i ≤ first + n then buf.getD (i - 1) none
      else buf.getD i none := by
  induction n generalizing buf with
  | zero =>
    rw [moveBackwardCells]
    have : ¬ (first + 1 ≤ i ∧ i ≤ first + 0) := by omega
    rw [if_neg this]
  | succ m ih =>
    rw [moveBackwardCells, ih _ (by simp; omega)]
    by_cases h1 : first + 1 ≤ i ∧ i ≤ first + m
    · rw [if_pos h1, if_pos (by omega)]
      rw [getD_set_ne _ _ _ _ (by omega)]
    · rw [if_neg h1]
      by_cases h2 : i = first + m + 1
      · subst h2
        rw [if_pos (by omega), getD_set_self _ _ _ (by omega)]
        have he : first + m + 1 - 1 = first + m := by omega
        rw [he]
      · have : ¬ (first + 1 ≤ i ∧ i ≤ first + (m + 1)) := by omega
        rw [if_neg this, getD_set_ne _ _ _ _ (by omega)]

theorem length_moveCells (buf : List (Option α)) (src dst n : Nat) :
    (moveCells buf src dst n).length = buf.length := by
  induction n generalizing buf src dst with
  | zero => rfl
  | succ m ih => rw [moveCells, ih]; simp

theorem getD_moveCells (buf : List (Option α)) (dst n i : Nat)
    (h : dst + n ≤ buf.length) :
    (moveCells buf (dst + 1) dst n).getD i none =
      if dst ≤ i ∧ i < dst + n then buf.getD (i + 1) none
      else buf.getD i none := by
  induction n generalizing buf dst with
  | zero =>
    rw [moveCells]
    have : ¬ (dst ≤ i ∧ i < dst + 0) := by omega
    rw [if_neg this]
  | succ m ih =>
    rw [moveCells]
    have step := ih (buf.set dst (buf.getD (dst + 1) none)) (dst + 1) (by simp; omega)
    rw [step]
    by_cases h1 : dst + 1 ≤ i ∧ i < dst + 1 + m
    · rw [if_pos h1, if_pos (by omega)]
      rw [getD_set_ne _ _ _ _ (by omega)]
    · rw [if_neg h1]
      by_cases h2 : i = dst
      · subst h2
        rw [if_pos (by omega), getD_set_self _ _ _ (by omega)]
      · have : ¬ (dst ≤ i ∧ i < dst + (m + 1)) := by omega
        rw [if_neg this, getD_set_ne _ _ _ _ (by omega)]

/-- The dynamic array `Vector<T>` of vector.h: `data` models the raw buffer
`data_` (its length is the capacity), `size` models `size_`. -/
structure Vector (α : Type) where
  data : List (Option α)
  size : Nat
  deriving DecidableEq

/-- Models `Vector::Capacity()`: the capacity of the owned raw buffer. -/
def Capacity (v : Vector α) : Nat := v.data.length

/-- Models `Vector::Size()`. -/
def Size (v : Vector α) : Nat := v.size

/-- Reads the cell at index `i` (raw cells and out-of-buffer reads give
`none`). -/
def get (v : Vector α) (i : Nat) : Option α := v.data.getD i none

/-- The representation invariant of `Vector`: `size_` never exceeds the
buffer capacity, cells `[0, size_)` hold live elements and all remaining
cells are raw. -/
def Valid (v : Vector α) : Prop :=
  v.size ≤ Capacity v ∧ ∀ i, i < Capacity v → ((get v i).isSome ↔ i < v.size)

instance instDecidableValid (v : Vector α) : Decidable (Valid v) := by
  unfold Valid
  infer_instance

/-- Models the default constructor: empty vector, no allocation. -/
def emptyVec : Vector α := ⟨[], 0⟩

/-- Models `Vector::Emplace(pos, args...)` (vector.h lines 230-293) for the
value `x` the arguments construct.  Three paths, as in the source: the
reallocating path when `size_ == Capacity()` (new buffer of
`size_ == 0 ? 1 : size_ * 2` cells, new element constructed at its slot,
then the old cells `[0, pos)` and `[pos, size_)` transferred around it),
the append path (`pos == end()`), and the shift path (construct the last
element one past the end, `std::move_backward` the range `[pos, size_-1)`
one slot right, then assign `x` at `pos`).  Returns the new vector and the
index of the returned iterator. -/
def Emplace (v : Vector α) (pos : Nat) (x : α) : Vector α × Nat :=
  if v.size = Capacity v then
    (⟨writeRange
        (writeRange
          ((List.replicate (if v.size = 0 then 1 else v.size * 2) (none : Option α)).set
            pos (some x))
          0 (v.data.take pos))
        (pos + 1) ((v.data.drop pos).take (v.size - pos)),
      v.size + 1⟩, pos)
  else if pos = v.size then
    (⟨v.data.set v.size (some x), v.size + 1⟩, pos)
  else
    (⟨(moveBackwardCells (v.data.set v.size (v.data.getD (v.size - 1) none))
          pos (v.size - 1 - pos)).set pos (some x),
      v.size + 1⟩, pos)

/-- Models both `Vector::Insert` overloads (vector.h lines 305-313): both
forward to `Emplace`. -/
def Insert (v : Vector α) (pos : Nat) (x : α) : Vector α × Nat := Emplace v pos x

/-- Models `Vector::EmplaceBack`: `Emplace` at `end()`. -/
def EmplaceBack (v : Vector α) (x : α) : Vector α × Nat := Emplace v v.size x

/-- Models both `Vector::PushBack` overloads: `EmplaceBack` on the value. -/
def PushBack (v : Vector α) (x : α) : Vector α := (EmplaceBack v x).1

/-- Models `Vector::PopBack`: destroy the last live element, decrement
`size_`. -/
def PopBack (v : Vector α) : Vector α := ⟨v.data.set (v.size - 1) none, v.size - 1⟩

/-- Models `Vector::Erase(pos)` (vector.h lines 295-303): left-shift
`[pos+1, size_)` by one via `std::move`, then `PopBack`.  Returns the new
vector and the index of the returned iterator. -/
def Erase (v : Vector α) (pos : Nat) : Vector α × Nat :=
  (PopBack ⟨moveCells v.data (pos + 1) pos (v.size - (pos + 1)), v.size⟩, pos)

/-- Models `Vector::Reserve` (vector.h lines 176-194): no-op unless
`new_capacity` exceeds the current capacity; otherwise transfer the live
elements into a fresh buffer of exactly `new_capacity` cells. -/
def Reserve (v : Vector α) (n : Nat) : Vector α :=
  if n ≤ Capacity v then v
  else ⟨writeRange (List.replicate n none) 0 (v.data.take v.size), v.size⟩

/-- Models `Vector::Resize` (vector.h lines 196-207) with `d` the
value-constructed element `T()`: shrinking destroys the tail, growing
reserves then value-constructs the new tail. -/
def Resize (v : Vector α) (d : α) (n : Nat) : Vector α :=
  if n < v.size then ⟨writeRange v.data n (List.replicate (v.size - n) none), n⟩
  else ⟨writeRange (Reserve v n).data v.size (List.replicate (n - v.size) (some d)), n⟩

/-- Models the copy constructor (vector.h lines 111-118): a buffer of
exactly `other.size_` cells, each live element copy-constructed. -/
def CopyCtor (v : Vector α) : Vector α :=
  ⟨writeRange (List.replicate v.size none) 0 (v.data.take v.size), v.size⟩

/-- Models `Vector(size_t size)` with `d` the value-constructed element. -/
def SizedCtor (d : α) (n : Nat) : Vector α := ⟨List.replicate n (some d), n⟩

/-- Models `Vector::Swap`. -/
def Swap (v w : Vector α) : Vector α × Vector α := (w, v)

/-- Models the move constructor: default-construct then `Swap` with the
source; returns (new vector, what the source becomes). -/
def MoveCtor (v : Vector α) : Vector α × Vector α := Swap emptyVec v

/-- Models `operator=(const Vector&)` (vector.h lines 123-147).  The flag
`self` models the `this != &rhs` pointer check.  When the source is larger
than the capacity, copy-and-swap; otherwise reuse the buffer in place:
assign over the common front, then either copy-construct the extra tail or
destroy the surplus tail. -/
def CopyAssign (self : Bool) (dst rhs : Vector α) : Vector α :=
  if self then dst
  else if Capacity dst < rhs.size then CopyCtor rhs
  else if dst.size ≤ rhs.size then
    ⟨writeRange (writeRange dst.data 0 (rhs.data.take dst.size))
        dst.size ((rhs.data.drop dst.size).take (rhs.size - dst.size)), rhs.size⟩
  else
    ⟨writeRange (writeRange dst.data 0 (rhs.data.take rhs.size))
        rhs.size (List.replicate (dst.size - rhs.size) none), rhs.size⟩

/-- Models `operator=(Vector&&)` (vector.h lines 149-155): `Swap` unless
assigning to self.  Returns (what `*this` becomes, what `rhs` becomes). -/
def MoveAssign (self : Bool) (dst rhs : Vector α) : Vector α × Vector α :=
  if self then (dst, rhs) else Swap dst rhs

/-- Models a write through `operator[]`: the returned reference is assigned
a new value. -/
def setAt (v : Vector α) (i : Nat) (x : α) : Vector α := ⟨v.data.set i (some x), v.size⟩

/-- Models the `assert(index < capacity_)` in `RawMemory::operator[]`
(vector.h line 64): `true` when the check passes. -/
def rawIndexAssert (cap i : Nat) : Bool := decide (i < cap)

/-- Models the checks on the mutable `Vector::operator[]` (vector.h lines
170-174): its own `assert(index < size_)` followed by the `RawMemory`
check. -/
def indexAssertMut (v : Vector α) (i : Nat) : Bool :=
  decide (i < v.size) && rawIndexAssert (Capacity v) i

/-- Models the checks on the const `Vector::operator[]` (vector.h lines
167-168): it forwards straight to `RawMemory::operator[]`, so only the
`assert(index < capacity_)` check runs. -/
def indexAssertConst (v : Vector α) (i : Nat) : Bool := rawIndexAssert (Capacity v) i

theorem getD_take (l : List (Option α)) (n j : Nat) (h : j < n) :
    (l.take n).getD j none = l.getD j none := by
  induction l generalizing n j with
  | nil => simp
  | cons a t ih =>
    cases n with
    | zero => omega
    | succ m =>
      cases j with
      | zero => rfl
      | succ k => simpa using ih m k (by omega)

theorem getD_drop (l : List (Option α)) (s j : Nat) :
    (l.drop s).getD j none = l.getD (s + j) none := by
  induction l generalizing s with
  | nil => simp
  | cons a t ih =>
    cases s with
    | zero => simp
    | succ m =>
      have he : m + 1 + j = (m + j) + 1 := by omega
      rw [List.drop_succ_cons, ih m, he, List.getD_cons_succ]

theorem getD_drop_take (l : List (Option α)) (s n j : Nat) (h : j < n) :
    ((l.drop s).take n).getD j none = l.getD (s + j) none := by
  rw [getD_take _ _ _ h, getD_drop]

theorem get_none_of_valid (v : Vector α) (i : Nat) (hv : Valid v) (h : v.size ≤ i) :
    get v i = none := by
  by_cases hc : i < Capacity v
  · have hiff := hv.2 i hc
    cases hg : get v i with
    | none => rfl
    | some a => rw [hg] at hiff; simp at hiff; omega
  · exact getD_ge_length _ _ (by unfold Capacity at hc; omega)

theorem get_Emplace (v : Vector α) (pos : Nat) (x : α) (i : Nat)
    (hv : Valid v) (hpos : pos ≤ v.size) :
    get (Emplace v pos x).1 i =
      if i < pos then get v i
      else if i = pos then some x
      else if i ≤ v.size then get v (i - 1)
      else none := by
  have hsc := hv.1
  have hL : Capacity v = v.data.length := rfl
  rw [hL] at hsc
  by_cases hfull : v.size = Capacity v
  · unfold Emplace
    rw [if_pos hfull]
    dsimp only [get]
    have hnc1 : v.size + 1 ≤ (if v.size = 0 then 1 else v.size * 2) := by
      by_cases h0 : v.size = 0
      · rw [if_pos h0, h0]
      · rw [if_neg h0]; omega
    have hlp : (v.data.take pos).length = pos := by
      simp [List.length_take]; omega
    have hls : ((v.data.drop pos).take (v.size - pos)).length = v.size - pos := by
      simp [List.length_take, List.length_drop]; omega
    have hb0 : ((List.replicate (if v.size = 0 then 1 else v.size * 2)
        (none : Option α)).set pos (some x)).length =
        (if v.size = 0 then 1 else v.size * 2) := by simp
    rw [getD_writeRange _ _ _ _ (by rw [hls, length_writeRange, hb0]; omega), hls]
    by_cases h1 : pos + 1 ≤ i ∧ i < pos + 1 + (v.size - pos)
    · rw [if_pos h1, getD_drop_take _ _ _ _ (by omega)]
      rw [if_neg (by omega : ¬ i < pos), if_neg (by omega : ¬ i = pos),
        if_pos (by omega : i ≤ v.size)]
      have he : pos + (i - (pos + 1)) = i - 1 := by omega
      rw [he]
    · rw [if_neg h1, getD_writeRange _ _ _ _ (by rw [hlp, hb0]; omega), hlp]
      by_cases h2 : i < pos
      · rw [if_pos (by omega : 0 ≤ i ∧ i < 0 + pos), Nat.sub_zero,
          getD_take _ _ _ h2, if_pos h2]
      · rw [if_neg (by omega : ¬ (0 ≤ i ∧ i < 0 + pos))]
        by_cases h3 : i = pos
        · subst h3
          rw [getD_set_self _ _ _ (by simp; omega)]
          rw [if_neg (by omega : ¬ i < i), if_pos rfl]
        · rw [getD_set_ne _ _ _ _ (by omega), getD_replicate_none]
          rw [if_neg h2, if_neg h3, if_neg (by omega : ¬ i ≤ v.size)]
  · unfold Emplace
    rw [if_neg hfull]
    have hlt : v.size < v.data.length := by unfold Capacity at hfull; omega
    by_cases hpe : pos = v.size
    · rw [if_pos hpe]
      dsimp only [get]
      subst hpe
      by_cases h2 : i < v.size
      · rw [getD_set_ne _ _ _ _ (by omega), if_pos h2]
      · by_cases h3 : i = v.size
        · subst h3
          rw [getD_set_self _ _ _ hlt, if_neg (by omega : ¬ v.size < v.size),
            if_pos rfl]
        · rw [getD_set_ne _ _ _ _ (by omega), if_neg h2, if_neg h3,
            if_neg (by omega : ¬ i ≤ v.size)]
          exact get_none_of_valid v i hv (by omega)
    · rw [if_neg hpe]
      dsimp only [get]
      have hps : pos < v.size := by omega
      by_cases h2 : i = pos
      · subst h2
        rw [getD_set_self _ _ _ (by rw [length_moveBackwardCells]; simp; omega)]
        rw [if_neg (by omega : ¬ i < i), if_pos rfl]
      · rw [getD_set_ne _ _ _ _ (by omega)]
        rw [getD_moveBackwardCells _ _ _ _ (by simp; omega)]
        by_cases h3 : pos + 1 ≤ i ∧ i ≤ pos + (v.size - 1 - pos)
        · rw [if_pos h3, getD_set_ne _ _ _ _ (by omega)]
          rw [if_neg (by omega : ¬ i < pos), if_neg h2, if_pos (by omega : i ≤ v.size)]
        · rw [if_neg h3]
          by_cases h4 : i = v.size
          · subst h4
            rw [getD_set_self _ _ _ hlt]
            rw [if_neg (by omega : ¬ v.size < pos), if_neg h2,
              if_pos (le_refl v.size)]
          · by_cases h5 : i < pos
            · rw [getD_set_ne _ _ _ _ (by omega), if_pos h5]
            · rw [getD_set_ne _ _ _ _ (by omega), if_neg h5, if_neg h2,
                if_neg (by omega : ¬ i ≤ v.size)]
              exact get_none_of_valid v i hv (by omega)

theorem size_Emplace (v : Vector α) (pos : Nat) (x : α) :
    (Emplace v pos x).1.size = v.size + 1 := by
  unfold Emplace
  split_ifs <;> rfl

theorem idx_Emplace (v : Vector α) (pos : Nat) (x : α) :
    (Emplace v pos x).2 = pos := by
  unfold Emplace
  split_ifs <;> rfl

theorem capacity_Emplace (v : Vector α) (pos : Nat) (x : α) :
    Capacity (Emplace v pos x).1 =
      if v.size = Capacity v then (if v.size = 0 then 1 else v.size * 2)
      else Capacity v := by
  unfold Emplace Capacity
  split_ifs with h1 h2 <;>
    simp [length_writeRange, length_moveBackwardCells]

/-- A concrete vector used to witness several claims: contents [10, 20, 30],
size 3, capacity 4. -/
def vecW : Vector Nat := ⟨[some 10, some 20, some 30, none], 3⟩

/-- Claim C1: for every vector and every valid position pos, Emplace/Insert
of a value at pos increases size by exactly 1, leaves the elements before
pos unchanged, places the value at pos, shifts every element previously at
or after pos one slot right preserving order, and returns an iterator to
the inserted element; this covers both the reallocating path (size =
capacity) and the free-slot path, which are the two branches of the
modelled Emplace. -/
theorem claim1_insert_spec (v : Vector α) (pos : Nat) (x : α)
    (hv : Valid v) (hpos : pos ≤ Size v) :
    Size (Insert v pos x).1 = Size v + 1 ∧
    (Insert v pos x).2 = pos ∧
    (∀ i, i < pos → get (Insert v pos x).1 i = get v i) ∧
    get (Insert v pos x).1 pos = some x ∧
    (∀ i, pos ≤ i → i < Size v → get (Insert v pos x).1 (i + 1) = get v i) := by
  unfold Insert Size
  refine ⟨size_Emplace v pos x, idx_Emplace v pos x, ?_, ?_, ?_⟩
  · intro i hi
    rw [get_Emplace v pos x i hv hpos, if_pos hi]
  · rw [get_Emplace v pos x pos hv hpos, if_neg (lt_irrefl pos), if_pos rfl]
  · intro i h1 h2
    rw [get_Emplace v pos x (i + 1) hv hpos, if_neg (by omega), if_neg (by omega),
      if_pos (by omega), Nat.add_sub_cancel]

/-- Witness for C1 at the concrete vector [10, 20, 30] (capacity 4),
inserting 99 at position 1. -/
theorem claim1_insert_spec_witness :
    Valid vecW ∧ 1 ≤ Size vecW ∧
    (Size (Insert vecW 1 99).1 = Size vecW + 1 ∧
     (Insert vecW 1 99).2 = 1 ∧
     (∀ i, i < 1 → get (Insert vecW 1 99).1 i = get vecW i) ∧
     get (Insert vecW 1 99).1 1 = some 99 ∧
     (∀ i, 1 ≤ i → i < Size vecW → get (Insert vecW 1 99).1 (i + 1) = get vecW i)) :=
  ⟨by decide, by decide, claim1_insert_spec vecW 1 99 (by decide) (by decide)⟩

theorem size_Erase (v : Vector α) (pos : Nat) : (Erase v pos).1.size = v.size - 1 := rfl

theorem idx_Erase (v : Vector α) (pos : Nat) : (Erase v pos).2 = pos := rfl

theorem capacity_Erase (v : Vector α) (pos : Nat) :
    Capacity (Erase v pos).1 = Capacity v := by
  unfold Erase PopBack Capacity
  simp [length_moveCells]

theorem get_Erase (v : Vector α) (pos i : Nat) (hv : Valid v) (hpos : pos < v.size) :
    get (Erase v pos).1 i =
      if i < pos then get v i
      else if i + 1 < v.size then get v (i + 1)
      else none := by
  have hsc := hv.1
  have hL : Capacity v = v.data.length := rfl
  rw [hL] at hsc
  unfold Erase PopBack
  dsimp only [get]
  by_cases h1 : i = v.size - 1
  · subst h1
    rw [getD_set_self _ _ _ (by rw [length_moveCells]; omega)]
    rw [if_neg (by omega), if_neg (by omega)]
  · rw [getD_set_ne _ _ _ _ (by omega)]
    rw [getD_moveCells v.data pos (v.size - (pos + 1)) i (by omega)]
    by_cases h2 : pos ≤ i ∧ i < pos + (v.size - (pos + 1))
    · rw [if_pos h2, if_neg (by omega), if_pos (by omega)]
    · rw [if_neg h2]
      by_cases h3 : i < pos
      · rw [if_pos h3]
      · rw [if_neg h3, if_neg (by omega)]
        exact get_none_of_valid v i hv (by omega)

/-- Claim C9: for every non-empty vector and position in [begin, end),
Erase removes exactly the element at pos, shifts each later element one
slot left, destroys the now-vacant last live slot, decrements size by one,
and returns an iterator to the element now occupying pos. -/
theorem claim9_erase_spec (v : Vector α) (pos : Nat)
    (hv : Valid v) (hpos : pos < Size v) :
    (Erase v pos).2 = pos ∧
    Size (Erase v pos).1 = Size v - 1 ∧
    (∀ i, i < pos → get (Erase v pos).1 i = get v i) ∧
    (∀ i, pos ≤ i → i + 1 < Size v → get (Erase v pos).1 i = get v (i + 1)) ∧
    get (Erase v pos).1 (Size v - 1) = none := by
  unfold Size at *
  refine ⟨idx_Erase v pos, size_Erase v pos, ?_, ?_, ?_⟩
  · intro i hi
    rw [get_Erase v pos i hv hpos, if_pos hi]
  · intro i h1 h2
    rw [get_Erase v pos i hv hpos, if_neg (by omega), if_pos h2]
  · rw [get_Erase v pos (v.size - 1) hv hpos,
      if_neg (by omega), if_neg (by omega)]

/-- Witness for C9: erasing position 1 of the vector [10, 20, 30]. -/
theorem claim9_erase_spec_witness :
    Valid vecW ∧ 1 < Size vecW ∧
    ((Erase vecW 1).2 = 1 ∧
     Size (Erase vecW 1).1 = Size vecW - 1 ∧
     (∀ i, i < 1 → get (Erase vecW 1).1 i = get vecW i) ∧
     (∀ i, 1 ≤ i → i + 1 < Size vecW → get (Erase vecW 1).1 i = get vecW (i + 1)) ∧
     get (Erase vecW 1).1 (Size vecW - 1) = none) :=
  ⟨by decide, by decide, claim9_erase_spec vecW 1 (by decide) (by decide)⟩

theorem getD_replicate (n i : Nat) (a : Option α) (h : i < n) :
    (List.replicate n a).getD i none = a := by
  induction n generalizing i with
  | zero => omega
  | succ m ih =>
    cases i with
    | zero => rfl
    | succ j => exact ih j (by omega)

theorem Reserve_le (v : Vector α) (n : Nat) (h : n ≤ Capacity v) : Reserve v n = v := by
  unfold Reserve
  rw [if_pos h]

theorem size_Reserve (v : Vector α) (n : Nat) : (Reserve v n).size = v.size := by
  unfold Reserve
  split_ifs <;> rfl

theorem capacity_Reserve_grow (v : Vector α) (n : Nat) (h : Capacity v < n) :
    Capacity (Reserve v n) = n := by
  unfold Reserve
  rw [if_neg (by omega)]
  unfold Capacity
  simp [length_writeRange]

theorem get_Reserve (v : Vector α) (n i : Nat) (hv : Valid v) :
    get (Reserve v n) i = if i < v.size then get v i else none := by
  have hsc := hv.1
  have hL : Capacity v = v.data.length := rfl
  rw [hL] at hsc
  unfold Reserve
  by_cases h : n ≤ Capacity v
  · rw [if_pos h]
    by_cases h2 : i < v.size
    · rw [if_pos h2]
    · rw [if_neg h2]
      exact get_none_of_valid v i hv (by omega)
  · rw [if_neg h]
    unfold Capacity at h
    dsimp only [get]
    have hlp : (v.data.take v.size).length = v.size := by simp; omega
    rw [getD_writeRange _ _ _ _ (by rw [hlp]; simp; omega), hlp]
    by_cases h2 : i < v.size
    · rw [if_pos (by omega), Nat.sub_zero, getD_take _ _ _ h2, if_pos h2]
    · rw [if_neg (by omega), if_neg h2, getD_replicate_none]

/-- Claim C8: Reserve with n at most the capacity is a no-op (the vector is
returned unchanged, so capacity, size, elements and buffer identity are
untouched); Reserve with n above the capacity sets the capacity to exactly
n and preserves size and all element values. -/
theorem claim8_reserve_spec (v : Vector α) (n : Nat) (hv : Valid v) :
    (n ≤ Capacity v → Reserve v n = v) ∧
    (Capacity v < n →
      Capacity (Reserve v n) = n ∧
      Size (Reserve v n) = Size v ∧
      ∀ i, i < Size v → get (Reserve v n) i = get v i) := by
  refine ⟨Reserve_le v n, fun h => ⟨capacity_Reserve_grow v n h, size_Reserve v n, ?_⟩⟩
  intro i hi
  rw [get_Reserve v n i hv, if_pos (show i < v.size from hi)]

/-- Witness for C8 at the vector [10, 20, 30] with capacity 4: the no-op
case with n = 2 and the growing case with n = 7. -/
theorem claim8_reserve_spec_witness :
    Valid vecW ∧
    (2 ≤ Capacity vecW → Reserve vecW 2 = vecW) ∧
    (Capacity vecW < 7 →
      Capacity (Reserve vecW 7) = 7 ∧
      Size (Reserve vecW 7) = Size vecW ∧
      ∀ i, i < Size vecW → get (Reserve vecW 7) i = get vecW i) :=
  ⟨by decide, (claim8_reserve_spec vecW 2 (by decide)).1,
    fun h => ((claim8_reserve_spec vecW 7 (by decide)).2 h)⟩

theorem size_CopyCtor (v : Vector α) : (CopyCtor v).size = v.size := rfl

theorem capacity_CopyCtor (v : Vector α) : Capacity (CopyCtor v) = v.size := by
  unfold CopyCtor Capacity
  simp [length_writeRange]

theorem get_CopyCtor (v : Vector α) (i : Nat) (hv : Valid v) :
    get (CopyCtor v) i = if i < v.size then get v i else none := by
  have hsc := hv.1
  have hL : Capacity v = v.data.length := rfl
  rw [hL] at hsc
  unfold CopyCtor
  dsimp only [get]
  have hlp : (v.data.take v.size).length = v.size := by simp; omega
  rw [getD_writeRange _ _ _ _ (by rw [hlp]; simp), hlp]
  by_cases h2 : i < v.size
  · rw [if_pos (by omega), Nat.sub_zero, getD_take _ _ _ h2, if_pos h2]
  · rw [if_neg (by omega), if_neg h2, getD_replicate_none]

/-- Claim C7: copy construction from a source of length N yields a vector
with size and capacity both equal to N (the source's length, not its
capacity) and equal elements at equal indices; and the copy is
independent — writing an element of the copy through operator[] changes
only that cell of the copy, never the source (the source appears unchanged
on the right-hand sides). -/
theorem claim7_copy_ctor_spec (v : Vector α) (hv : Valid v) :
    Size (CopyCtor v) = Size v ∧
    Capacity (CopyCtor v) = Size v ∧
    (∀ i, i < Size v → get (CopyCtor v) i = get v i) ∧
    (∀ i x, i < Size v →
      get (setAt (CopyCtor v) i x) i = some x ∧
      ∀ j, j < Size v → j ≠ i → get (setAt (CopyCtor v) i x) j = get v j) := by
  unfold Size
  refine ⟨size_CopyCtor v, capacity_CopyCtor v, ?_, ?_⟩
  · intro i hi
    rw [get_CopyCtor v i hv, if_pos hi]
  · intro i x hi
    have hlen : i < (CopyCtor v).data.length := by
      have := capacity_CopyCtor v
      unfold Capacity at this
      omega
    constructor
    · unfold setAt
      dsimp only [get]
      rw [getD_set_self _ _ _ hlen]
    · intro j hj hne
      unfold setAt
      dsimp only [get]
      rw [getD_set_ne _ _ _ _ (by omega)]
      have := get_CopyCtor v j hv
      rw [if_pos hj] at this
      exact this

/-- Witness for C7: copying [10, 20, 30] and then overwriting index 0 of
the copy. -/
theorem claim7_copy_ctor_spec_witness :
    Valid vecW ∧
    (Size (CopyCtor vecW) = Size vecW ∧
     Capacity (CopyCtor vecW) = Size vecW ∧
     (∀ i, i < Size vecW → get (CopyCtor vecW) i = get vecW i) ∧
     (∀ i x, i < Size vecW →
       get (setAt (CopyCtor vecW) i x) i = some x ∧
       ∀ j, j < Size vecW → j ≠ i → get (setAt (CopyCtor vecW) i x) j = get vecW j)) :=
  ⟨by decide, claim7_copy_ctor_spec vecW (by decide)⟩

/-- Claim C10: copy-assigning a vector to itself and move-assigning a
vector to itself are both no-ops: the `this != &rhs` guard (modelled by
the `self` flag being true) returns the destination unchanged, so size,
capacity and all elements are preserved exactly. -/
theorem claim10_self_assign (v : Vector α) :
    CopyAssign true v v = v ∧
    (MoveAssign true v v).1 = v ∧ (MoveAssign true v v).2 = v :=
  ⟨rfl, rfl, rfl⟩

/-- n consecutive `PushBack` calls of the value `x` starting from the empty
vector. -/
def PushN (x : α) : Nat → Vector α
  | 0 => emptyVec
  | n + 1 => PushBack (PushN x n) x

theorem size_PushN (x : α) (n : Nat) : (PushN x n).size = n := by
  induction n with
  | zero => rfl
  | succ m ih =>
    show (PushBack (PushN x m) x).size = m + 1
    unfold PushBack EmplaceBack
    rw [size_Emplace, ih]

theorem capacity_PushBack (v : Vector α) (x : α) :
    Capacity (PushBack v x) =
      if v.size = Capacity v then (if v.size = 0 then 1 else v.size * 2)
      else Capacity v := by
  unfold PushBack EmplaceBack
  exact capacity_Emplace v v.size x

theorem capacity_PushN_pow2 (x : α) (n : Nat) (h : 1 ≤ n) :
    n ≤ Capacity (PushN x n) ∧ Capacity (PushN x n) < 2 * n ∧
    ∃ k, Capacity (PushN x n) = 2 ^ k := by
  induction n with
  | zero => omega
  | succ m ih =>
    have hsz := size_PushN x m
    have hcap := capacity_PushBack (PushN x m) x
    rw [show PushN x (m + 1) = PushBack (PushN x m) x from rfl]
    by_cases hm : m = 0
    · subst hm
      have hc0 : Capacity (PushN x 0) = 0 := rfl
      rw [hcap, hsz, hc0, if_pos rfl, if_pos rfl]
      exact ⟨by omega, by omega, 0, by norm_num⟩
    · obtain ⟨hle, hlt, k, hk⟩ := ih (by omega)
      rw [hcap, hsz]
      by_cases hfull : m = Capacity (PushN x m)
      · rw [if_pos hfull, if_neg hm]
        refine ⟨by omega, by omega, k + 1, ?_⟩
        rw [pow_succ]
        omega
      · rw [if_neg hfull]
        exact ⟨by omega, by omega, k, hk⟩

/-- Claim C3: an insertion that finds size equal to capacity grows the
capacity to max(1, 2 * old capacity); consequently after N consecutive
push_backs from empty the capacity is the first power of two that is at
least N (it is a power of two, at least N, and below 2N). -/
theorem claim3_growth_doubling (v : Vector α) (pos : Nat) (x : α) (n : Nat) :
    (Size v = Capacity v →
      Capacity (Emplace v pos x).1 = max 1 (2 * Capacity v)) ∧
    (1 ≤ n →
      n ≤ Capacity (PushN x n) ∧ Capacity (PushN x n) < 2 * n ∧
      ∃ k, Capacity (PushN x n) = 2 ^ k) := by
  constructor
  · intro hfull
    unfold Size at hfull
    rw [capacity_Emplace, if_pos hfull]
    by_cases h0 : v.size = 0
    · rw [if_pos h0, ← hfull, h0]
      simp
    · rw [if_neg h0, Nat.max_eq_right (by omega), ← hfull]
      omega
  · exact capacity_PushN_pow2 x n

/-- A full vector (size = capacity = 1), used to witness the growth
claims. -/
def vecF : Vector Nat := ⟨[some 5], 1⟩

/-- Witness for C3: growing the full one-element vector and pushing three
elements from empty. -/
theorem claim3_growth_doubling_witness :
    (Capacity (Emplace vecF 0 (7 : Nat)).1 = max 1 (2 * Capacity vecF)) ∧
    (3 ≤ Capacity (PushN (7 : Nat) 3) ∧ Capacity (PushN (7 : Nat) 3) < 2 * 3 ∧
      ∃ k, Capacity (PushN (7 : Nat) 3) = 2 ^ k) :=
  ⟨(claim3_growth_doubling vecF 0 (7 : Nat) 3).1 (by decide),
    (claim3_growth_doubling vecF 0 (7 : Nat) 3).2 (by omega)⟩

theorem get_eq_getD (v : Vector α) (i : Nat) : v.data.getD i none = get v i := rfl

theorem get_PopBack (v : Vector α) (i : Nat) (hv : Valid v) (hs : 1 ≤ v.size) :
    get (PopBack v) i = if i < v.size - 1 then get v i else none := by
  have hsc := hv.1
  unfold Capacity at hsc
  unfold PopBack
  dsimp only [get]
  by_cases h1 : i = v.size - 1
  · subst h1
    rw [getD_set_self _ _ _ (by omega), if_neg (by omega)]
  · rw [getD_set_ne _ _ _ _ (by omega)]
    by_cases h2 : i < v.size - 1
    · rw [if_pos h2]
    · rw [if_neg h2]
      exact get_none_of_valid v i hv (by omega)

theorem capacity_PopBack (v : Vector α) : Capacity (PopBack v) = Capacity v := by
  unfold PopBack Capacity
  simp

theorem capacity_Reserve_ge (v : Vector α) (n : Nat) : n ≤ Capacity (Reserve v n) := by
  unfold Reserve
  by_cases h : n ≤ Capacity v
  · rw [if_pos h]
    exact h
  · rw [if_neg h]
    unfold Capacity
    simp [length_writeRange]

theorem size_Resize (v : Vector α) (d : α) (n : Nat) : (Resize v d n).size = n := by
  unfold Resize
  split_ifs <;> rfl

theorem capacity_Resize (v : Vector α) (d : α) (n : Nat) :
    Capacity (Resize v d n) =
      if n < v.size then Capacity v else Capacity (Reserve v n) := by
  unfold Resize Capacity
  split_ifs <;> simp [length_writeRange]

theorem get_Resize (v : Vector α) (d : α) (n i : Nat) (hv : Valid v) :
    get (Resize v d n) i =
      if i < n ∧ i < v.size then get v i
      else if i < n then some d
      else none := by
  have hsc := hv.1
  unfold Capacity at hsc
  unfold Resize
  by_cases hn : n < v.size
  · rw [if_pos hn]
    dsimp only [get]
    rw [getD_writeRange _ _ _ _ (by simp only [List.length_replicate]; omega)]
    simp only [List.length_replicate]
    by_cases h1 : n ≤ i ∧ i < n + (v.size - n)
    · rw [if_pos h1, getD_replicate_none, if_neg (by omega), if_neg (by omega)]
    · rw [if_neg h1]
      by_cases h2 : i < n
      · rw [if_pos (by omega : i < n ∧ i < v.size)]
      · rw [if_neg (by omega), if_neg h2]
        exact get_none_of_valid v i hv (by omega)
  · rw [if_neg hn]
    dsimp only [get]
    have hres : n ≤ (Reserve v n).data.length := capacity_Reserve_ge v n
    rw [getD_writeRange _ _ _ _ (by simp only [List.length_replicate]; omega)]
    simp only [List.length_replicate]
    by_cases h1 : v.size ≤ i ∧ i < v.size + (n - v.size)
    · rw [if_pos h1, getD_replicate _ _ _ (by omega)]
      rw [if_neg (by omega), if_pos (by omega)]
    · rw [if_neg h1, get_eq_getD (Reserve v n) i, get_Reserve v n i hv]
      by_cases h2 : i < v.size
      · rw [if_pos h2, if_pos (by omega : i < n ∧ i < v.size)]
        rfl
      · rw [if_neg h2, if_neg (by omega), if_neg (by omega)]

theorem get_setAt (v : Vector α) (i j : Nat) (x : α) (hi : i < Capacity v) :
    get (setAt v i x) j = if j = i then some x else get v j := by
  unfold Capacity at hi
  unfold setAt
  dsimp only [get]
  by_cases h : j = i
  · subst h
    rw [getD_set_self _ _ _ hi, if_pos rfl]
  · rw [getD_set_ne _ _ _ _ (by omega), if_neg h]

theorem size_CopyAssign (dst rhs : Vector α) :
    (CopyAssign false dst rhs).size = rhs.size := by
  unfold CopyAssign
  rw [if_neg Bool.false_ne_true]
  split_ifs <;> rfl

theorem capacity_CopyAssign (dst rhs : Vector α) :
    Capacity (CopyAssign false dst rhs) =
      if Capacity dst < rhs.size then rhs.size else Capacity dst := by
  unfold CopyAssign
  rw [if_neg Bool.false_ne_true]
  split_ifs with h1 h2
  · exact capacity_CopyCtor rhs
  · unfold Capacity
    simp [length_writeRange]
  · unfold Capacity
    simp [length_writeRange]

theorem get_CopyAssign (dst rhs : Vector α) (i : Nat) (hd : Valid dst) (hr : Valid rhs) :
    get (CopyAssign false dst rhs) i = if i < rhs.size then get rhs i else none := by
  have hsd := hd.1
  have hsr := hr.1
  unfold Capacity at hsd hsr
  unfold CopyAssign
  rw [if_neg Bool.false_ne_true]
  by_cases hb1 : Capacity dst < rhs.size
  · rw [if_pos hb1]
    exact get_CopyCtor rhs i hr
  · rw [if_neg hb1]
    unfold Capacity at hb1
    by_cases hb2 : dst.size ≤ rhs.size
    · rw [if_pos hb2]
      dsimp only [get]
      have hlp : (rhs.data.take dst.size).length = dst.size := by simp; omega
      have hls : ((rhs.data.drop dst.size).take (rhs.size - dst.size)).length =
          rhs.size - dst.size := by simp; omega
      rw [getD_writeRange _ _ _ _ (by rw [hls, length_writeRange]; omega), hls]
      by_cases h1 : dst.size ≤ i ∧ i < dst.size + (rhs.size - dst.size)
      · rw [if_pos h1, getD_drop_take _ _ _ _ (by omega)]
        have he : dst.size + (i - dst.size) = i := by omega
        rw [he, if_pos (by omega)]
      · rw [if_neg h1, getD_writeRange _ _ _ _ (by rw [hlp]; omega), hlp]
        by_cases h2 : i < dst.size
        · rw [if_pos (by omega), Nat.sub_zero, getD_take _ _ _ h2, if_pos (by omega)]
        · rw [if_neg (by omega), if_neg (by omega)]
          exact get_none_of_valid dst i hd (by omega)
    · rw [if_neg hb2]
      dsimp only [get]
      have hlp : (rhs.data.take rhs.size).length = rhs.size := by simp; omega
      rw [getD_writeRange _ _ _ _
        (by simp only [List.length_replicate]; rw [length_writeRange]; omega)]
      simp only [List.length_replicate]
      by_cases h1 : rhs.size ≤ i ∧ i < rhs.size + (dst.size - rhs.size)
      · rw [if_pos h1, getD_replicate_none, if_neg (by omega)]
      · rw [if_neg h1, getD_writeRange _ _ _ _ (by rw [hlp]; omega), hlp]
        by_cases h2 : i < rhs.size
        · rw [if_pos (by omega), Nat.sub_zero, getD_take _ _ _ h2, if_pos h2]
        · rw [if_neg (by omega), if_neg h2]
          exact get_none_of_valid dst i hd (by omega)

theorem valid_of_get (v : Vector α) (hsc : v.size ≤ Capacity v)
    (h1 : ∀ i, i < v.size → (get v i).isSome = true)
    (h2 : ∀ i, v.size ≤ i → i < Capacity v → get v i = none) : Valid v := by
  refine ⟨hsc, fun i hi => ?_⟩
  by_cases h : i < v.size
  · exact iff_of_true (h1 i h) h
  · refine iff_of_false ?_ h
    rw [h2 i (by omega) hi]
    simp

theorem get_isSome_of_valid (v : Vector α) (i : Nat) (hv : Valid v) (h : i < v.size) :
    (get v i).isSome = true := by
  have hc : i < Capacity v := by have := hv.1; omega
  exact (hv.2 i hc).mpr h

theorem valid_empty : Valid (emptyVec : Vector α) := by
  refine ⟨le_refl 0, fun i hi => ?_⟩
  unfold Capacity emptyVec at hi
  simp at hi

theorem valid_SizedCtor (d : α) (n : Nat) : Valid (SizedCtor d n) := by
  apply valid_of_get
  · unfold SizedCtor Capacity
    simp
  · intro i hi
    unfold SizedCtor at hi ⊢
    dsimp only [get]
    rw [getD_replicate _ _ _ hi]
    rfl
  · intro i hi hic
    unfold SizedCtor at hi
    unfold SizedCtor Capacity at hic
    simp at hi hic
    omega

theorem valid_CopyCtor (v : Vector α) (hv : Valid v) : Valid (CopyCtor v) := by
  apply valid_of_get
  · rw [show (CopyCtor v).size = v.size from rfl, capacity_CopyCtor]
  · intro i hi
    rw [show (CopyCtor v).size = v.size from rfl] at hi
    rw [get_CopyCtor v i hv, if_pos hi]
    exact get_isSome_of_valid v i hv hi
  · intro i hi hic
    rw [show (CopyCtor v).size = v.size from rfl] at hi
    rw [get_CopyCtor v i hv, if_neg (by omega)]

theorem valid_Emplace (v : Vector α) (pos : Nat) (x : α) (hv : Valid v)
    (hpos : pos ≤ v.size) : Valid (Emplace v pos x).1 := by
  have hsc := hv.1
  apply valid_of_get
  · rw [size_Emplace, capacity_Emplace]
    split_ifs with h1 h2 <;> omega
  · intro i hi
    rw [size_Emplace] at hi
    rw [get_Emplace v pos x i hv hpos]
    split_ifs with a b c
    · exact get_isSome_of_valid v i hv (by omega)
    · rfl
    · exact get_isSome_of_valid v (i - 1) hv (by omega)
    · omega
  · intro i hi hic
    rw [size_Emplace] at hi
    rw [get_Emplace v pos x i hv hpos, if_neg (by omega), if_neg (by omega),
      if_neg (by omega)]

theorem valid_Erase (v : Vector α) (pos : Nat) (hv : Valid v) (hpos : pos < v.size) :
    Valid (Erase v pos).1 := by
  have hsc := hv.1
  apply valid_of_get
  · rw [size_Erase, capacity_Erase]
    omega
  · intro i hi
    rw [size_Erase] at hi
    rw [get_Erase v pos i hv hpos]
    split_ifs with a b
    · exact get_isSome_of_valid v i hv (by omega)
    · exact get_isSome_of_valid v (i + 1) hv (by omega)
    · omega
  · intro i hi hic
    rw [size_Erase] at hi
    rw [get_Erase v pos i hv hpos, if_neg (by omega), if_neg (by omega)]

theorem valid_PopBack (v : Vector α) (hv : Valid v) (hs : 1 ≤ v.size) :
    Valid (PopBack v) := by
  have hsc := hv.1
  apply valid_of_get
  · rw [show (PopBack v).size = v.size - 1 from rfl, capacity_PopBack]
    omega
  · intro i hi
    rw [show (PopBack v).size = v.size - 1 from rfl] at hi
    rw [get_PopBack v i hv hs, if_pos hi]
    exact get_isSome_of_valid v i hv (by omega)
  · intro i hi hic
    rw [show (PopBack v).size = v.size - 1 from rfl] at hi
    rw [get_PopBack v i hv hs, if_neg (by omega)]

theorem valid_Reserve (v : Vector α) (n : Nat) (hv : Valid v) : Valid (Reserve v n) := by
  have hsc := hv.1
  have hge := capacity_Reserve_ge v n
  apply valid_of_get
  · rw [size_Reserve]
    unfold Reserve at *
    split_ifs with h
    · exact hsc
    · unfold Capacity at *
      simp [length_writeRange] at hge ⊢
      omega
  · intro i hi
    rw [size_Reserve] at hi
    rw [get_Reserve v n i hv, if_pos hi]
    exact get_isSome_of_valid v i hv hi
  · intro i hi hic
    rw [size_Reserve] at hi
    rw [get_Reserve v n i hv, if_neg (by omega)]

theorem valid_Resize (v : Vector α) (d : α) (n : Nat) (hv : Valid v) :
    Valid (Resize v d n) := by
  have hsc := hv.1
  apply valid_of_get
  · rw [size_Resize, capacity_Resize]
    split_ifs with h
    · omega
    · exact capacity_Reserve_ge v n
  · intro i hi
    rw [size_Resize] at hi
    rw [get_Resize v d n i hv]
    split_ifs with a
    · exact get_isSome_of_valid v i hv a.2
    · rfl
  · intro i hi hic
    rw [size_Resize] at hi
    rw [get_Resize v d n i hv, if_neg (by omega), if_neg (by omega)]

theorem valid_setAt (v : Vector α) (i : Nat) (x : α) (hv : Valid v) (hi : i < v.size) :
    Valid (setAt v i x) := by
  have hsc := hv.1
  have hic : i < Capacity v := by omega
  apply valid_of_get
  · rw [show (setAt v i x).size = v.size from rfl,
      show Capacity (setAt v i x) = Capacity v from by unfold setAt Capacity; simp]
    exact hsc
  · intro j hj
    rw [show (setAt v i x).size = v.size from rfl] at hj
    rw [get_setAt v i j x hic]
    split_ifs with h
    · rfl
    · exact get_isSome_of_valid v j hv hj
  · intro j hj hjc
    rw [show (setAt v i x).size = v.size from rfl] at hj
    rw [get_setAt v i j x hic, if_neg (by omega)]
    exact get_none_of_valid v j hv hj

theorem valid_CopyAssign (dst rhs : Vector α) (hd : Valid dst) (hr : Valid rhs) :
    Valid (CopyAssign false dst rhs) := by
  have hsd := hd.1
  have hsr := hr.1
  apply valid_of_get
  · rw [size_CopyAssign, capacity_CopyAssign]
    split_ifs with h <;> omega
  · intro i hi
    rw [size_CopyAssign] at hi
    rw [get_CopyAssign dst rhs i hd hr, if_pos hi]
    exact get_isSome_of_valid rhs i hr hi
  · intro i hi hic
    rw [size_CopyAssign] at hi
    rw [get_CopyAssign dst rhs i hd hr, if_neg (by omega)]

/-- Claim C6: every public Vector operation preserves the representation
invariant: size never exceeds capacity, cells [0, size) hold live
constructed elements, and cells [size, capacity) are raw storage.  (The
buffer-pointer/null aspect lives below the embedding: a buffer is its cell
list, whose length is the capacity.) -/
theorem claim6_invariant_preservation (v w : Vector α) (x d : α) (pos n i : Nat)
    (hv : Valid v) (hw : Valid w) :
    Valid (emptyVec : Vector α) ∧
    Valid (SizedCtor d n) ∧
    Valid (CopyCtor v) ∧
    Valid (MoveCtor v).1 ∧ Valid (MoveCtor v).2 ∧
    (pos ≤ Size v → Valid (Emplace v pos x).1) ∧
    (pos ≤ Size v → Valid (Insert v pos x).1) ∧
    Valid (PushBack v x) ∧
    (pos < Size v → Valid (Erase v pos).1) ∧
    (1 ≤ Size v → Valid (PopBack v)) ∧
    Valid (Reserve v n) ∧
    Valid (Resize v d n) ∧
    (i < Size v → Valid (setAt v i x)) ∧
    Valid (CopyAssign false v w) ∧ Valid (CopyAssign true v w) ∧
    Valid (MoveAssign false v w).1 ∧ Valid (MoveAssign false v w).2 ∧
    Valid (MoveAssign true v w).1 ∧ Valid (MoveAssign true v w).2 ∧
    Valid (Swap v w).1 ∧ Valid (Swap v w).2 :=
  ⟨valid_empty, valid_SizedCtor d n, valid_CopyCtor v hv,
    hv, valid_empty,
    fun h => valid_Emplace v pos x hv h,
    fun h => valid_Emplace v pos x hv h,
    valid_Emplace v v.size x hv (le_refl v.size),
    fun h => valid_Erase v pos hv h,
    fun h => valid_PopBack v hv h,
    valid_Reserve v n hv,
    valid_Resize v d n hv,
    fun h => valid_setAt v i x hv h,
    valid_CopyAssign v w hv hw, hv,
    hw, hv, hv, hw, hw, hv⟩

/-- Witness for C6 at two concrete vectors, position 1, n = 2, index 0. -/
theorem claim6_invariant_preservation_witness :
    Valid vecW ∧ Valid vecF ∧
    (Valid (emptyVec : Vector Nat) ∧
     Valid (SizedCtor 4 2) ∧
     Valid (CopyCtor vecW) ∧
     Valid (MoveCtor vecW).1 ∧ Valid (MoveCtor vecW).2 ∧
     (1 ≤ Size vecW → Valid (Emplace vecW 1 9).1) ∧
     (1 ≤ Size vecW → Valid (Insert vecW 1 9).1) ∧
     Valid (PushBack vecW 9) ∧
     (1 < Size vecW → Valid (Erase vecW 1).1) ∧
     (1 ≤ Size vecW → Valid (PopBack vecW)) ∧
     Valid (Reserve vecW 2) ∧
     Valid (Resize vecW 4 2) ∧
     (0 < Size vecW → Valid (setAt vecW 0 9)) ∧
     Valid (CopyAssign false vecW vecF) ∧ Valid (CopyAssign true vecW vecF) ∧
     Valid (MoveAssign false vecW vecF).1 ∧ Valid (MoveAssign false vecW vecF).2 ∧
     Valid (MoveAssign true vecW vecF).1 ∧ Valid (MoveAssign true vecW vecF).2 ∧
     Valid (Swap vecW vecF).1 ∧ Valid (Swap vecW vecF).2) :=
  ⟨by decide, by decide,
    claim6_invariant_preservation vecW vecF 9 4 1 2 0 (by decide) (by decide)⟩

theorem set_none_eq_self (l : List (Option α)) (t : Nat) (h : l.getD t none = none) :
    l.set t none = l := by
  induction l generalizing t with
  | nil => rfl
  | cons a tl ih =>
    cases t with
    | zero =>
      have ha : a = none := h
      show none :: tl = a :: tl
      rw [ha]
    | succ j =>
      show a :: tl.set j none = a :: tl
      rw [ih j h]

/-- Models `std::uninitialized_copy_n(src + s, n, dst + t)` for an element
type whose copy constructor may throw: `oracle k` says whether the k-th
copy operation (globally counted, starting at `cnt`) succeeds.  On a
throw, the algorithm destroys the cells it has already constructed — as
the standard mandates — before the exception escapes; the error value
carries the buffer as it stands at that point, and the counter. -/
def uCopyNT (oracle : Nat → Bool) (src : List (Option α)) :
    Nat → Nat → Nat → Nat → List (Option α) →
    Except (List (Option α) × Nat) (List (Option α) × Nat)
  | cnt, _, _, 0, dst => Except.ok (dst, cnt)
  | cnt, s, t, n + 1, dst =>
    if oracle cnt then
      match uCopyNT oracle src (cnt + 1) (s + 1) (t + 1) n (dst.set t (src.getD s none)) with
      | Except.ok r => Except.ok r
      | Except.error (b, c) => Except.error (b.set t none, c)
    else Except.error (dst, cnt + 1)

theorem uCopyNT_error (oracle : Nat → Bool) (src : List (Option α)) (cnt s t n : Nat)
    (dst b : List (Option α)) (c : Nat)
    (hraw : ∀ j, t ≤ j → j < t + n → dst.getD j none = none)
    (h : uCopyNT oracle src cnt s t n dst = Except.error (b, c)) :
    b = dst := by
  induction n generalizing cnt s t dst b c with
  | zero =>
    rw [uCopyNT] at h
    simp at h
  | succ m ih =>
    rw [uCopyNT] at h
    by_cases ho : oracle cnt
    · rw [if_pos ho] at h
      cases hrec : uCopyNT oracle src (cnt + 1) (s + 1) (t + 1) m
          (dst.set t (src.getD s none)) with
      | ok r =>
        rw [hrec] at h
        simp at h
      | error bc =>
        obtain ⟨b', c'⟩ := bc
        rw [hrec] at h
        simp only [Except.error.injEq, Prod.mk.injEq] at h
        obtain ⟨hb, hc⟩ := h
        have hb' : b' = dst.set t (src.getD s none) := by
          apply ih (cnt + 1) (s + 1) (t + 1) (dst.set t (src.getD s none)) b' c' ?_ hrec
          intro j hj1 hj2
          rw [getD_set_ne _ _ _ _ (by omega)]
          exact hraw j (by omega) (by omega)
        rw [← hb, hb', List.set_set,
          set_none_eq_self _ _ (hraw t (le_refl t) (by omega))]
    · rw [if_neg ho] at h
      simp only [Except.error.injEq, Prod.mk.injEq] at h
      exact h.1.symm

theorem uCopyNT_ok (oracle : Nat → Bool) (src : List (Option α)) (cnt s t n : Nat)
    (dst b : List (Option α)) (c : Nat)
    (hlen : t + n ≤ dst.length)
    (h : uCopyNT oracle src cnt s t n dst = Except.ok (b, c)) :
    b.length = dst.length ∧
    ∀ i, b.getD i none =
      if t ≤ i ∧ i < t + n then src.getD (s + (i - t)) none else dst.getD i none := by
  induction n generalizing cnt s t dst b c with
  | zero =>
    rw [uCopyNT] at h
    simp only [Except.ok.injEq, Prod.mk.injEq] at h
    obtain ⟨hb, hc⟩ := h
    subst hb
    refine ⟨rfl, fun i => ?_⟩
    rw [if_neg (by omega)]
  | succ m ih =>
    rw [uCopyNT] at h
    by_cases ho : oracle cnt
    · rw [if_pos ho] at h
      cases hrec : uCopyNT oracle src (cnt + 1) (s + 1) (t + 1) m
          (dst.set t (src.getD s none)) with
      | error bc =>
        obtain ⟨b', c'⟩ := bc
        rw [hrec] at h
        simp at h
      | ok r =>
        obtain ⟨b2, c2⟩ := r
        rw [hrec] at h
        simp only [Except.ok.injEq, Prod.mk.injEq] at h
        obtain ⟨hb, hc⟩ := h
        subst hb
        obtain ⟨hlen2, hget⟩ :=
          ih (cnt + 1) (s + 1) (t + 1) (dst.set t (src.getD s none)) b2 c2
            (by simp; omega) hrec
        constructor
        · rw [hlen2]
          simp
        · intro i
          rw [hget i]
          by_cases h1 : t + 1 ≤ i ∧ i < t + 1 + m
          · rw [if_pos h1, if_pos (by omega)]
            have he : s + 1 + (i - (t + 1)) = s + (i - t) := by omega
            rw [he]
          · rw [if_neg h1]
            by_cases h2 : i = t
            · subst h2
              rw [getD_set_self _ _ _ (by omega), if_pos (by omega)]
              have he : s + (i - i) = s := by omega
              rw [he]
            · rw [getD_set_ne _ _ _ _ (by omega), if_neg (by omega)]
    · rw [if_neg ho] at h
      simp at h

/-- Models the reallocating branch of `Vector::Emplace` (vector.h lines
235-269) when the transfer takes the `std::uninitialized_copy_n` fallback
(lines 248-259) — the branch the `if constexpr` selects whenever the
element type is copy-constructible and not nothrow-move-constructible, so
exactly when an element operation of the transfer can throw a copy — with
the construction of the new element from its arguments also allowed to
throw, following the source line by line: the new element is constructed at its target slot
first (`xr = none` models `Construct` itself throwing, before anything
else happened in the new buffer), then the old cells `[0, pos)` and
`[pos, size_)` are copied around it; if the tail copy throws, the inner
catch destroys the already-copied head `[0, pos)`, and the outer catch
destroys the new element, before the exception escapes.  The original
buffer is only read before the final `Swap`, so on error the vector is
returned as the caller still observes it, together with the state of the
new buffer after the handlers ran, and the counter. -/
def EmplaceReallocT (oracle : Nat → Bool) (cnt : Nat) (v : Vector α) (pos : Nat)
    (xr : Option α) : Except (Vector α × List (Option α) × Nat) (Vector α × Nat × Nat) :=
  match xr with
  | none =>
    Except.error (v, List.replicate (if v.size = 0 then 1 else v.size * 2) none, cnt)
  | some x =>
    match uCopyNT oracle v.data cnt 0 0 pos
        ((List.replicate (if v.size = 0 then 1 else v.size * 2) (none : Option α)).set
          pos (some x)) with
    | Except.error (b, c) => Except.error (v, b.set pos none, c)
    | Except.ok (b2, c) =>
      match uCopyNT oracle v.data c pos (pos + 1) (v.size - pos) b2 with
      | Except.error (b, c') =>
        Except.error (v, (writeRange b 0 (List.replicate pos none)).set pos none, c')
      | Except.ok (b3, c') => Except.ok (⟨b3, v.size + 1⟩, pos, c')

/-- Models `Vector::Reserve` (vector.h lines 176-194) when the transfer
takes the `std::uninitialized_copy_n` fallback (lines 188-191), the branch
selected whenever the element type is copy-constructible and not
nothrow-move-constructible: the algorithm destroys its
partially-constructed cells before rethrowing; the original buffer is
untouched on failure. -/
def ReserveT (oracle : Nat → Bool) (cnt : Nat) (v : Vector α) (n : Nat) :
    Except (Vector α × List (Option α) × Nat) (Vector α × Nat) :=
  if n ≤ Capacity v then Except.ok (v, cnt)
  else
    match uCopyNT oracle v.data cnt 0 0 v.size (List.replicate n none) with
    | Except.error (b, c) => Except.error (v, b, c)
    | Except.ok (b2, c) => Except.ok (⟨b2, v.size⟩, c)

/-- Claim C2 (amended): if the construction of the new element or an
element copy throws during a reallocation-based growth (the reallocating
branch of Emplace — hence also Insert and PushBack — when size equals
capacity, or a growing Reserve), every partially-constructed element in
the new buffer has been destroyed by the time the exception propagates,
and the vector the caller observes is exactly the one from before the
call: same size, capacity and element values (strong exception safety).
Element copies occur exactly on the copy-fallback transfer branch, which
the code takes whenever the element type is copy-constructible and not
nothrow-movable; on the move branch the guarantee fails for a move-only
type with a throwing move, see the counterexample below. -/
theorem claim2_realloc_strong_safety (oracle : Nat → Bool) (cnt : Nat) (v : Vector α)
    (pos n : Nat) (xr : Option α) (hv : Valid v) (hpos : pos ≤ Size v)
    (hfull : Size v = Capacity v) :
    (∀ w newBuf c, EmplaceReallocT oracle cnt v pos xr = Except.error (w, newBuf, c) →
      w = v ∧ ∀ i, newBuf.getD i none = none) ∧
    (∀ w newBuf c, ReserveT oracle cnt v n = Except.error (w, newBuf, c) →
      w = v ∧ ∀ i, newBuf.getD i none = none) := by
  have hsc := hv.1
  unfold Size at hpos hfull
  unfold Capacity at hsc hfull
  constructor
  · intro w newBuf c h
    cases xr with
    | none =>
      simp only [EmplaceReallocT, Except.error.injEq, Prod.mk.injEq] at h
      refine ⟨h.1.symm, fun i => ?_⟩
      rw [← h.2.1, getD_replicate_none]
    | some x =>
      have hnc1 : v.size + 1 ≤ (if v.size = 0 then 1 else v.size * 2) := by
        by_cases h0 : v.size = 0
        · rw [if_pos h0, h0]
        · rw [if_neg h0]
          omega
      simp only [EmplaceReallocT] at h
      cases hrec : uCopyNT oracle v.data cnt 0 0 pos
          ((List.replicate (if v.size = 0 then 1 else v.size * 2) (none : Option α)).set
            pos (some x)) with
      | error bc =>
        obtain ⟨b, c'⟩ := bc
        rw [hrec] at h
        simp only [Except.error.injEq, Prod.mk.injEq] at h
        obtain ⟨hw, hnb, hc⟩ := h
        have hb : b = (List.replicate (if v.size = 0 then 1 else v.size * 2)
            (none : Option α)).set pos (some x) := by
          apply uCopyNT_error oracle v.data cnt 0 0 pos _ b c' ?_ hrec
          intro j hj1 hj2
          rw [getD_set_ne _ _ _ _ (by omega), getD_replicate_none]
        refine ⟨hw.symm, fun i => ?_⟩
        rw [← hnb, hb, List.set_set]
        by_cases hi : i = pos
        · subst hi
          rw [getD_set_self _ _ _ (by simp; omega)]
        · rw [getD_set_ne _ _ _ _ (by omega), getD_replicate_none]
      | ok r =>
        obtain ⟨b2, c2⟩ := r
        rw [hrec] at h
        dsimp only [] at h
        obtain ⟨hlen2, hget2⟩ :=
          uCopyNT_ok oracle v.data cnt 0 0 pos _ b2 c2 (by simp; omega) hrec
        cases hrec2 : uCopyNT oracle v.data c2 pos (pos + 1) (v.size - pos) b2 with
        | error bc =>
          obtain ⟨b, c'⟩ := bc
          rw [hrec2] at h
          simp only [Except.error.injEq, Prod.mk.injEq] at h
          obtain ⟨hw, hnb, hc⟩ := h
          have hb : b = b2 := by
            apply uCopyNT_error oracle v.data c2 pos (pos + 1) (v.size - pos) b2 b c' ?_ hrec2
            intro j hj1 hj2
            rw [hget2 j, if_neg (by omega), getD_set_ne _ _ _ _ (by omega),
              getD_replicate_none]
          refine ⟨hw.symm, fun i => ?_⟩
          rw [← hnb, hb]
          by_cases hi : i = pos
          · subst hi
            rw [getD_set_self _ _ _ (by rw [length_writeRange, hlen2]; simp; omega)]
          · rw [getD_set_ne _ _ _ _ (by omega),
              getD_writeRange _ _ _ _
                (by simp only [List.length_replicate]; rw [hlen2]; simp; omega)]
            simp only [List.length_replicate]
            by_cases h1 : 0 ≤ i ∧ i < 0 + pos
            · rw [if_pos h1, getD_replicate_none]
            · rw [if_neg h1, hget2 i, if_neg (by omega),
                getD_set_ne _ _ _ _ (by omega), getD_replicate_none]
        | ok r2 =>
          obtain ⟨b3, c3⟩ := r2
          rw [hrec2] at h
          simp at h
  · intro w newBuf c h
    unfold ReserveT at h
    by_cases hcap : n ≤ Capacity v
    · rw [if_pos hcap] at h
      simp at h
    · rw [if_neg hcap] at h
      cases hrec : uCopyNT oracle v.data cnt 0 0 v.size
          (List.replicate n (none : Option α)) with
      | error bc =>
        obtain ⟨b, c'⟩ := bc
        rw [hrec] at h
        simp only [Except.error.injEq, Prod.mk.injEq] at h
        obtain ⟨hw, hnb, hc⟩ := h
        have hb : b = List.replicate n (none : Option α) := by
          apply uCopyNT_error oracle v.data cnt 0 0 v.size _ b c' ?_ hrec
          intro j hj1 hj2
          rw [getD_replicate_none]
        refine ⟨hw.symm, fun i => ?_⟩
        rw [← hnb, hb, getD_replicate_none]
      | ok r =>
        obtain ⟨b2, c2⟩ := r
        rw [hrec] at h
        simp at h

/-- The always-throwing copy oracle: every element copy fails. -/
def oFalse : Nat → Bool := fun _ => false

/-- A full two-element vector (size = capacity = 2). -/
def vecF2 : Vector Nat := ⟨[some 1, some 2], 2⟩

/-- Witness for C2: inserting 9 at position 1 of the full vector [1, 2]
with every copy throwing, and reserving capacity 3 likewise. -/
theorem claim2_realloc_strong_safety_witness :
    Valid vecF2 ∧ 1 ≤ Size vecF2 ∧ Size vecF2 = Capacity vecF2 ∧
    ((∀ w newBuf c,
        EmplaceReallocT oFalse 0 vecF2 1 (some 9) = Except.error (w, newBuf, c) →
        w = vecF2 ∧ ∀ i, newBuf.getD i none = none) ∧
     (∀ w newBuf c,
        ReserveT oFalse 0 vecF2 3 = Except.error (w, newBuf, c) →
        w = vecF2 ∧ ∀ i, newBuf.getD i none = none)) :=
  ⟨by decide, by decide, by decide,
    claim2_realloc_strong_safety oFalse 0 vecF2 1 3 (some 9) (by decide) (by decide)
      (by decide)⟩

/-- Sanity: with every copy throwing, the modelled reallocating Emplace on
the full vector [1, 2] does fail, the original vector is returned
untouched and the new buffer ends fully destroyed. -/
theorem emplaceReallocT_throw_concrete :
    EmplaceReallocT oFalse 0 vecF2 1 (some 9) =
      Except.error (vecF2, [none, none, none, none], 1) := rfl

/-- An element value for the throwing-move model: either a real value, or
the valid-but-unspecified state a C++ object is left in after being moved
from. -/
inductive MVal (α : Type) where
  | val : α → MVal α
  | moved : MVal α
  deriving DecidableEq

/-- Models `std::uninitialized_move_n(src + s, n, dst + t)` for an element
type whose move constructor may throw (a move-only type with a throwing
move): moving the cell at `src + k` writes its value into `dst + t + k`
and leaves the source cell live but moved-from.  `oracle` says whether the
k-th move (globally counted from `cnt`) succeeds.  On a throw the
algorithm destroys the cells it has itself already constructed — as the
standard mandates — but the source cells it has already moved from stay
moved-from; the error value carries both buffers as they then stand, and
the counter. -/
def uMoveNT (oracle : Nat → Bool) :
    Nat → Nat → Nat → Nat → List (Option (MVal α)) → List (Option (MVal α)) →
    Except (List (Option (MVal α)) × List (Option (MVal α)) × Nat)
      (List (Option (MVal α)) × List (Option (MVal α)) × Nat)
  | cnt, _, _, 0, src, dst => Except.ok (src, dst, cnt)
  | cnt, s, t, n + 1, src, dst =>
    if oracle cnt then
      match uMoveNT oracle (cnt + 1) (s + 1) (t + 1) n
          (src.set s (some MVal.moved)) (dst.set t (src.getD s none)) with
      | Except.ok r => Except.ok r
      | Except.error (src', b, c) => Except.error (src', b.set t none, c)
    else Except.error (src, dst, cnt + 1)

/-- Models the reallocating branch of `Vector::Emplace` (vector.h lines
235-269) when the transfer takes the `std::uninitialized_move_n` branch
(lines 240-246) — selected by the `if constexpr` when the element type is
nothrow-move-constructible OR not copy-constructible — for the case that
makes the branch able to throw: a move-only type with a throwing move.
The new element is constructed at its slot first (`xr` as in
`EmplaceReallocT`), then the head `[0, pos)` and the tail `[pos, size_)`
are move-transferred around it.  Unlike the copy fallback, this branch
has NO inner catch: a throw in the tail transfer reaches only the outer
handler (lines 261-263), which destroys the new element alone, so the
targets of the completed head transfer stay constructed in the new buffer
(leaked when `RawMemory` frees it without destructors) and the head's
source cells in the old buffer stay moved-from.  On error returns the
vector as the caller observes it — old buffer including any moved-from
cells — the new buffer's state, and the counter. -/
def EmplaceReallocMoveT (oracle : Nat → Bool) (cnt : Nat) (v : Vector (MVal α))
    (pos : Nat) (xr : Option (MVal α)) :
    Except (Vector (MVal α) × List (Option (MVal α)) × Nat)
      (Vector (MVal α) × Nat × Nat) :=
  match xr with
  | none =>
    Except.error (v, List.replicate (if v.size = 0 then 1 else v.size * 2) none, cnt)
  | some x =>
    match uMoveNT oracle cnt 0 0 pos v.data
        ((List.replicate (if v.size = 0 then 1 else v.size * 2)
          (none : Option (MVal α))).set pos (some x)) with
    | Except.error (src', b, c) => Except.error (⟨src', v.size⟩, b.set pos none, c)
    | Except.ok (src2, b2, c) =>
      match uMoveNT oracle c pos (pos + 1) (v.size - pos) src2 b2 with
      | Except.error (src', b, c') => Except.error (⟨src', v.size⟩, b.set pos none, c')
      | Except.ok (_, b3, c') => Except.ok (⟨b3, v.size + 1⟩, pos, c')

/-- Models `Vector::Reserve` (vector.h lines 176-194) when the transfer
takes the `std::uninitialized_move_n` branch (lines 183-187) with a
throwing move: the algorithm destroys its own partially-constructed
targets before the exception escapes, but the source cells it already
moved from stay moved-from in the original buffer — the original element
values are not preserved. -/
def ReserveMoveT (oracle : Nat → Bool) (cnt : Nat) (v : Vector (MVal α)) (n : Nat) :
    Except (Vector (MVal α) × List (Option (MVal α)) × Nat) (Vector (MVal α) × Nat) :=
  if n ≤ Capacity v then Except.ok (v, cnt)
  else
    match uMoveNT oracle cnt 0 0 v.size v.data (List.replicate n none) with
    | Except.error (src', b, c) => Except.error (⟨src', v.size⟩, b, c)
    | Except.ok (_, b2, c) => Except.ok (⟨b2, v.size⟩, c)

/-- The oracle whose first element operation succeeds and whose second
throws. -/
def oSecond : Nat → Bool := fun k => k == 0

/-- A full two-element vector of move-only values (size = capacity = 2). -/
def vM : Vector (MVal Nat) := ⟨[some (MVal.val 10), some (MVal.val 20)], 2⟩

/-- Claim C2 (counterexample): the claim as stated also covers a throwing
MOVE during reallocation-based growth.  A move-only element type with a
throwing move constructor makes the source take the
`uninitialized_move_n` branch, and there the claim fails at a concrete
input: on the full vector [10, 20], inserting 99 at position 1 with the
first move succeeding and the second throwing, the exception propagates
with the old buffer's cell 0 left moved-from — the vector the caller
observes differs from the one before the call — and the moved head is
still live in the new buffer: a constructed element that was never
destroyed.  A growing Reserve likewise returns with cell 0 moved-from.
Both conclusions of the claim (state exactly as before; every
partially-constructed element destroyed) are thereby false. -/
theorem claim2_move_branch_cex :
    EmplaceReallocMoveT oSecond 0 vM 1 (some (MVal.val 99)) =
      Except.error (⟨[some MVal.moved, some (MVal.val 20)], 2⟩,
        [some (MVal.val 10), none, none, none], 2) ∧
    ReserveMoveT oSecond 0 vM 3 =
      Except.error (⟨[some MVal.moved, some (MVal.val 20)], 2⟩,
        [none, none, none], 2) ∧
    Valid vM ∧ Size vM = Capacity vM ∧
    get vM 0 = some (MVal.val 10) ∧
    (⟨[some MVal.moved, some (MVal.val 20)], 2⟩ : Vector (MVal Nat)) ≠ vM ∧
    ([some (MVal.val 10), none, none, none] : List (Option (MVal Nat))).getD 0 none ≠
      none :=
  ⟨rfl, rfl, by decide, rfl, rfl, by decide, by decide⟩

/-- Models the move-assignment loop of `std::move_backward(pos, end() - 1,
end())` for an element type whose move assignment may throw: assignments
run back to front, `oracle k` says whether the k-th assignment succeeds.
Returns the buffer after the assignments that did run, and whether an
exception was raised. -/
def moveBackwardT (oracle : Nat → Bool) :
    List (Option α) → Nat → Nat → Nat → List (Option α) × Bool
  | buf, _, _, 0 => (buf, false)
  | buf, first, cnt, n + 1 =>
    if oracle cnt then
      moveBackwardT oracle (buf.set (first + n + 1) (buf.getD (first + n) none))
        first (cnt + 1) n
    else (buf, true)

/-- Models the capacity-available middle branch of `Vector::Emplace`
(vector.h lines 279-292) when a move assignment inside
`std::move_backward` may throw.  Following the source: the temporary is
built, the last element is move-constructed into the one-past-end slot,
then the shift runs inside `try`; the `catch (...)` handler destroys the
element at `end()` and does NOT rethrow, so control falls through: the
temporary is still assigned into the position slot, `size_` is
incremented and the call returns normally.  The outer Bool records whether
an exception was thrown (and swallowed). -/
def EmplaceMidT (oracle : Nat → Bool) (v : Vector α) (pos : Nat) (x : α) :
    (Vector α × Nat) × Bool :=
  match moveBackwardT oracle (v.data.set v.size (v.data.getD (v.size - 1) none))
      pos 0 (v.size - 1 - pos) with
  | (b, thrown) =>
    ((⟨(if thrown then b.set v.size none else b).set pos (some x), v.size + 1⟩, pos),
      thrown)

/-- The never-throwing oracle. -/
def oTrue : Nat → Bool := fun _ => true

theorem moveBackwardT_oTrue (buf : List (Option α)) (first cnt n : Nat) :
    moveBackwardT oTrue buf first cnt n = (moveBackwardCells buf first n, false) := by
  induction n generalizing buf cnt with
  | zero => rfl
  | succ m ih =>
    rw [moveBackwardT, if_pos (show oTrue cnt = true from rfl), ih, moveBackwardCells]

/-- Sanity: when no move assignment throws, the throwing model of the
middle branch coincides with the pure `Emplace` on that branch and reports
no exception. -/
theorem emplaceMidT_oTrue (v : Vector α) (pos : Nat) (x : α)
    (hfull : v.size ≠ Capacity v) (hpe : pos ≠ v.size) :
    (EmplaceMidT oTrue v pos x).1 = Emplace v pos x ∧
    (EmplaceMidT oTrue v pos x).2 = false := by
  unfold EmplaceMidT
  rw [moveBackwardT_oTrue]
  unfold Emplace
  rw [if_neg hfull, if_neg hpe]
  exact ⟨rfl, rfl⟩

/-- Claim C4 (refuting theorem): on the vector [10, 20] with capacity 3,
inserting 99 at the front while the first move assignment of the shift
throws, the modelled code returns normally — the exception was swallowed,
because the catch handler around `std::move_backward` destroys `end()` but
never rethrows — with size incremented to 3 while the cell at index 2,
inside the new live range, is destroyed.  So the failure does not
propagate and the resulting state is not valid, contradicting the claim
on both counts. -/
theorem claim4_mid_insert_swallows :
    (EmplaceMidT oFalse (⟨[some 10, some 20, none], 2⟩ : Vector Nat) 0 99).2 = true ∧
    (EmplaceMidT oFalse (⟨[some 10, some 20, none], 2⟩ : Vector Nat) 0 99).1.1 =
      ⟨[some 99, some 20, none], 3⟩ ∧
    ¬ Valid (EmplaceMidT oFalse (⟨[some 10, some 20, none], 2⟩ : Vector Nat) 0 99).1.1 :=
  ⟨rfl, rfl, by decide⟩

/-- A vector with one live element and capacity 2, used for the C5
counterexample. -/
def vecC5 : Vector Nat := ⟨[some 7, none], 1⟩

/-- Claim C5 (counterexample): at size 1, capacity 2, the out-of-range
index 1 passes the const overload's assertion chain — the const
`Vector::operator[]` forwards straight to `RawMemory::operator[]`, whose
only check is `index < capacity_` — so no fatal check fires, refuting the
claim that both overloads trap every index at or beyond the size. -/
theorem claim5_const_index_unchecked_cex :
    Valid vecC5 ∧ Size vecC5 ≤ 1 ∧ indexAssertConst vecC5 1 = true := by decide

/-- Claim C5 (amended): for every index at or beyond the size, the mutable
overload's assertion chain fails (the debug fatal check fires), while the
const overload's chain fails exactly when the index also reaches the
capacity — indices in [size, capacity) pass the const overload
unchecked. -/
theorem claim5_index_assert_amended (v : Vector α) (i : Nat) (h : Size v ≤ i) :
    indexAssertMut v i = false ∧
    (indexAssertConst v i = false ↔ Capacity v ≤ i) := by
  unfold Size at h
  unfold indexAssertMut indexAssertConst rawIndexAssert
  constructor
  · have : ¬ i < v.size := by omega
    simp [this]
  · simp

/-- Witness for C5 (amended) at size 1, capacity 2, index 1. -/
theorem claim5_index_assert_amended_witness :
    Size vecC5 ≤ 1 ∧
    (indexAssertMut vecC5 1 = false ∧
     (indexAssertConst vecC5 1 = false ↔ Capacity vecC5 ≤ 1)) :=
  ⟨by decide, claim5_index_assert_amended vecC5 1 (by decide)⟩

/-- Sanity: two pushes from empty give [1, 2] with capacity 2. -/
theorem sanity_pushBack :
    PushBack (PushBack (emptyVec : Vector Nat) 1) 2 = ⟨[some 1, some 2], 2⟩ := by decide

/-- Sanity: a free-slot middle insert shifts the tail right. -/
theorem sanity_emplace_free_slot :
    (Emplace (⟨[some 1, some 2, some 3, none], 3⟩ : Vector Nat) 1 99).1 =
      ⟨[some 1, some 99, some 2, some 3], 4⟩ := by decide

/-- Sanity: a reallocating middle insert doubles the buffer and shifts the
tail right. -/
theorem sanity_emplace_realloc :
    (Emplace (⟨[some 1, some 2, some 3], 3⟩ : Vector Nat) 1 99).1 =
      ⟨[some 1, some 99, some 2, some 3, none, none], 4⟩ := by decide

/-- Sanity: erasing the front element shifts the rest left and clears the
vacated slot. -/
theorem sanity_erase_front :
    (Erase (⟨[some 1, some 2, some 3, none], 3⟩ : Vector Nat) 0).1 =
      ⟨[some 2, some 3, none, none], 2⟩ := by decide

end AdvancedVector
